import Mathlib

/-!
Verification of the aggregation core of the fastpi repository.

The development shallowly embeds the two aggregators:
* `src/fastpi/services/market.py` — market data fan-out over three providers
  (Binance, Bybit, CoinCap) with error-tolerant collection and the
  `median_price` derived property of `src/fastpi/models/market.py`;
* `src/fastpi/services/news.py` — news fan-out over the 11 configured scrape
  targets, with the two-tier HTML extraction and the RSS path.

Decoded JSON payloads and the dynamically typed values flowing through the
Python code are modelled by the inductive `PyVal`; numeric values are modelled
by `ℚ` (exact arithmetic in place of IEEE doubles).  Effectful steps (HTTP
requests, `datetime.now`) are abstracted: each upstream call is represented by
its outcome, `Except String payload`, where `.error msg` stands for any raised
exception with message `msg`, and timestamp fields are omitted from the
records since no property concerns them.  The models come from pydantic v2
(`pydantic_settings` is imported by `src/fastpi/config.py`), where `HttpUrl`
values are `Url` objects, not `str` subclasses; the embedding keeps that
distinction because the scraper's dedup set mixes the two types.
-/

namespace FastPI

/-- A Python value as it appears in a decoded JSON payload. -/
inductive PyVal where
  | none
  | bool (b : Bool)
  | num (q : ℚ)
  | str (s : String)
  | list (xs : List PyVal)
  | dict (kvs : List (String × PyVal))
deriving Repr

/-- Python truthiness (`bool(v)`) for the values of `PyVal`. -/
def pyFalsy : PyVal → Bool
  | .none => true
  | .bool b => !b
  | .num q => q == 0
  | .str s => s == ""
  | .list xs => xs.isEmpty
  | .dict kvs => kvs.isEmpty

/-- Whitespace recognized when stripping a numeric string. -/
def isSpaceChar (c : Char) : Bool :=
  c == ' ' || c == '\t' || c == '\n' || c == '\r'

/-- Strip leading and trailing whitespace from a character list. -/
def stripChars (cs : List Char) : List Char :=
  ((cs.dropWhile isSpaceChar).reverse.dropWhile isSpaceChar).reverse

/-- Python `str.upper()` (character-wise uppercasing). -/
def pyUpper (s : String) : String :=
  String.mk (s.toList.map Char.toUpper)

/-- Python `str.startswith(pre)`. -/
def strStarts (s pre : String) : Bool :=
  pre.toList.isPrefixOf s.toList

/-- Split a character list at the first occurrence of `sub`: the part before
it and the part after it, `none` when `sub` does not occur. -/
def splitFirst? : List Char → List Char → Option (List Char × List Char)
  | [], sub => if sub.isEmpty then some ([], []) else Option.none
  | c :: rest, sub =>
    if sub.isPrefixOf (c :: rest) then some ([], (c :: rest).drop sub.length)
    else
      match splitFirst? rest sub with
      | some (pre, post) => some (c :: pre, post)
      | Option.none => Option.none

/-- Numeric value of a run of decimal digits. -/
def decVal (cs : List Char) : ℚ :=
  cs.foldl (fun a c => 10 * a + ((c.toNat - 48 : ℕ) : ℚ)) 0

/-- Natural value of a run of decimal digits. -/
def decNat (cs : List Char) : ℕ :=
  cs.foldl (fun a c => 10 * a + (c.toNat - 48)) 0

def isDigits (cs : List Char) : Bool :=
  !cs.isEmpty && cs.all (·.isDigit)

/-- Optional exponent suffix of a float literal applied to a mantissa. -/
def parseExp? (mant : ℚ) : List Char → Option ℚ
  | [] => some mant
  | c :: rest =>
    if c == 'e' || c == 'E' then
      match rest with
      | '+' :: ds => if isDigits ds then some (mant * (10 : ℚ) ^ decNat ds) else Option.none
      | '-' :: ds => if isDigits ds then some (mant / (10 : ℚ) ^ decNat ds) else Option.none
      | ds => if isDigits ds then some (mant * (10 : ℚ) ^ decNat ds) else Option.none
    else Option.none

/-- Unsigned decimal float literal: digits with optional fraction and exponent. -/
def parseUnsigned? (cs : List Char) : Option ℚ :=
  let (ip, rest) := cs.span (·.isDigit)
  match rest with
  | '.' :: rest2 =>
    let (fp, rest3) := rest2.span (·.isDigit)
    if ip.isEmpty && fp.isEmpty then Option.none
    else parseExp? (decVal ip + decVal fp / (10 : ℚ) ^ fp.length) rest3
  | _ =>
    if ip.isEmpty then Option.none else parseExp? (decVal ip) rest

/-- Modelled Python `float(s)` on strings: surrounding whitespace stripped,
optional sign, decimal digits with optional fraction and exponent.  (The
special literals `inf`/`nan` are outside the model's scope.) -/
def pyFloatOfString? (s : String) : Option ℚ :=
  match stripChars s.toList with
  | '+' :: cs => parseUnsigned? cs
  | '-' :: cs => (parseUnsigned? cs).map Neg.neg
  | cs => parseUnsigned? cs

/-- `_to_float` from `src/fastpi/services/market.py`: `None` and the empty
string become `none`, numbers (including bools, which Python coerces as ints)
convert, strings are parsed, and any `TypeError`/`ValueError` (dict, list,
unparseable string) is swallowed to `none`. -/
def to_float : PyVal → Option ℚ
  | .none => Option.none
  | .str s => if s == "" then Option.none else pyFloatOfString? s
  | .num q => some q
  | .bool b => some (if b then 1 else 0)
  | .list _ => Option.none
  | .dict _ => Option.none

/-- `MarketPricePoint` of `src/fastpi/models/market.py` (the wire model). -/
structure MarketPricePoint where
  source : String
  symbol : String
  price : Option ℚ
  change_24h : Option ℚ
  volume_24h : Option ℚ
  raw : PyVal
deriving Repr

instance : Inhabited MarketPricePoint :=
  ⟨{ source := "", symbol := "", price := Option.none, change_24h := Option.none,
     volume_24h := Option.none, raw := .none }⟩

/-- `MarketAggregate` of `src/fastpi/models/market.py`; the `timestamp`
field (`datetime.now`) is effectful and omitted. -/
structure MarketAggregate where
  base_symbol : String
  quote_symbol : String
  symbol : String
  prices : List MarketPricePoint
deriving Repr

/-- `MarketAggregate.median_price`: the non-null prices are sorted; an empty
run yields `none`, an even count the average of the two middle values, an odd
count the middle value. -/
def median_price (agg : MarketAggregate) : Option ℚ :=
  let nonNull := List.insertionSort (· ≤ ·) (agg.prices.filterMap (fun p => p.price))
  if nonNull.isEmpty then Option.none
  else
    let mid := nonNull.length / 2
    if nonNull.length % 2 == 0 then
      some ((nonNull.getD (mid - 1) 0 + nonNull.getD mid 0) / 2)
    else some (nonNull.getD mid 0)

/-- `MarketDataService._fetch_binance`, given the outcome of the HTTP
request/JSON decode (`.error` models any raised transport or decode
exception).  Field access on a non-dict payload raises (`AttributeError`). -/
def fetch_binance (r : Except String PyVal) (base quote : String) :
    Except String MarketPricePoint :=
  let symbol := base ++ quote
  match r with
  | .error e => .error e
  | .ok (.dict kvs) =>
    .ok { source := "binance", symbol := symbol,
          price := to_float ((kvs.lookup "lastPrice").getD .none),
          change_24h := to_float ((kvs.lookup "priceChangePercent").getD .none),
          volume_24h := to_float ((kvs.lookup "quoteVolume").getD .none),
          raw := .dict kvs }
  | .ok _ => .error "AttributeError"

/-- `MarketDataService._fetch_bybit`: unwrap `result.list`, take the first
element (raising a `ValueError` when the list is empty or its head falsy),
and scale the fractional `price24hPcnt` by 100 when the key is present. -/
def fetch_bybit (r : Except String PyVal) (base quote : String) :
    Except String MarketPricePoint :=
  let symbol := base ++ quote
  match r with
  | .error e => .error e
  | .ok (.dict kvs) =>
    match (kvs.lookup "result").getD (.dict []) with
    | .dict rkvs =>
      match (rkvs.lookup "list").getD (.list []) with
      | .list items =>
        match items with
        | [] => .error ("Bybit returned no ticker data for " ++ symbol)
        | first :: _ =>
          if pyFalsy first then .error ("Bybit returned no ticker data for " ++ symbol)
          else
            match first with
            | .dict fkvs =>
              .ok { source := "bybit", symbol := symbol,
                    price := to_float ((fkvs.lookup "lastPrice").getD .none),
                    change_24h :=
                      match fkvs.lookup "price24hPcnt" with
                      | some v => (to_float v).map (fun q => q * 100)
                      | Option.none => Option.none,
                    volume_24h := to_float ((fkvs.lookup "turnover24h").getD .none),
                    raw := .dict fkvs }
            | _ => .error "AttributeError"
      | _ => .error "TypeError"
    | _ => .error "AttributeError"
  | .ok _ => .error "AttributeError"

/-- `entry.get("symbol", "").upper()` as used by the CoinCap match loop:
raises (`AttributeError`) when the entry is not a dict or the value of the
`symbol` key is not a string. -/
def entry_symbol? : PyVal → Except String String
  | .dict kvs =>
    match (kvs.lookup "symbol").getD (.str "") with
    | .str s => .ok s
    | _ => .error "AttributeError"
  | _ => .error "AttributeError"

/-- The CoinCap match loop (`for entry in data: ... break`): the first entry
whose symbol equals the uppercased base, `none` when no entry matches. -/
def coincap_find (entries : List PyVal) (baseU : String) : Except String (Option PyVal) :=
  match entries with
  | [] => .ok Option.none
  | e :: rest =>
    match entry_symbol? e with
    | .error err => .error err
    | .ok s => if (pyUpper s) == baseU then .ok (some e) else coincap_find rest baseU

/-- Match-or-first-entry selection (`if match is None and data: match = data[0]`). -/
def coincap_select (entries : List PyVal) (baseU : String) : Except String (Option PyVal) :=
  match coincap_find entries baseU with
  | .error err => .error err
  | .ok (some m) => .ok (some m)
  | .ok Option.none => .ok entries.head?

/-- `MarketDataService._fetch_coincap`: select an asset entry from the
`data` list and normalize its fields; an empty candidate set raises a
`ValueError`. -/
def fetch_coincap (r : Except String PyVal) (base quote : String) :
    Except String MarketPricePoint :=
  match r with
  | .error e => .error e
  | .ok (.dict kvs) =>
    match (kvs.lookup "data").getD (.list []) with
    | .list entries =>
      match coincap_select entries (pyUpper base) with
      | .error err => .error err
      | .ok Option.none => .error ("CoinCap returned no asset data for " ++ base)
      | .ok (some m) =>
        match m with
        | .dict mkvs =>
          .ok { source := "coincap", symbol := base ++ quote,
                price := to_float ((mkvs.lookup "priceUsd").getD .none),
                change_24h := to_float ((mkvs.lookup "changePercent24Hr").getD .none),
                volume_24h := to_float ((mkvs.lookup "volumeUsd24Hr").getD .none),
                raw := .dict mkvs }
        | _ => .error "AttributeError"
    | _ => .error "TypeError"
  | .ok _ => .error "AttributeError"

/-- The error placeholder point built by `fetch_symbol` for a failed task. -/
def error_point (symbol msg : String) : MarketPricePoint :=
  { source := "error", symbol := symbol, price := Option.none,
    change_24h := Option.none, volume_24h := Option.none,
    raw := .dict [("message", .str msg)] }

/-- Fan-in of one gathered task result (`isinstance` check of `fetch_symbol`). -/
def settle (symbol : String) : Except String MarketPricePoint → MarketPricePoint
  | .ok p => p
  | .error msg => error_point symbol msg

/-- `MarketDataService.fetch_symbol`: uppercase the pair, run the three
provider fetches (each given its request outcome), and collect positionally,
replacing failures by error points. -/
def fetch_symbol (base_symbol quote_symbol : String)
    (rBinance rBybit rCoincap : Except String PyVal) : MarketAggregate :=
  let base := pyUpper base_symbol
  let quote := pyUpper quote_symbol
  let symbol := base ++ quote
  { base_symbol := base, quote_symbol := quote, symbol := symbol,
    prices := [ settle symbol (fetch_binance rBinance base quote),
                settle symbol (fetch_bybit rBybit base quote),
                settle symbol (fetch_coincap rCoincap base quote) ] }

/-! ### News aggregator (`src/fastpi/services/news.py`) -/

/-- `ScrapeTarget` of `src/fastpi/services/news.py`. -/
structure ScrapeTarget where
  name : String
  url : String
  limit : Nat := 6
deriving Repr, DecidableEq

instance : Inhabited ScrapeTarget := ⟨{ name := "", url := "", limit := 6 }⟩

/-- `SCRAPE_TARGETS`: the 11 configured targets, all at the default
per-target cap 6. -/
def SCRAPE_TARGETS : List ScrapeTarget :=
  [ ⟨"CoinDesk", "https://www.coindesk.com/", 6⟩,
    ⟨"The Block", "https://www.theblock.co/latest", 6⟩,
    ⟨"Blockworks", "https://blockworks.co/news", 6⟩,
    ⟨"Cointelegraph", "https://cointelegraph.com/", 6⟩,
    ⟨"The Defiant", "https://thedefiant.io/latest", 6⟩,
    ⟨"DL News", "https://www.dlnews.com/", 6⟩,
    ⟨"Protos", "https://protos.com/", 6⟩,
    ⟨"Decrypt", "https://decrypt.co/", 6⟩,
    ⟨"Messari", "https://messari.io/news", 6⟩,
    ⟨"Glassnode Insights", "https://insights.glassnode.com/", 6⟩,
    ⟨"CryptoPanic", "https://cryptopanic.com/news/rss/", 6⟩ ]

/-- A pydantic-v2 `HttpUrl` value.  In pydantic v2 it wraps a `Url` object
and is NOT a `str` subclass; serialization (`str(u)`) is modelled as the
stored string. -/
structure HttpUrl where
  val : String
deriving Repr, DecidableEq

/-- `NewsArticle` of `src/fastpi/models/news.py`.  `published_at` carries the
string accepted by the permissive date parser (the `dateutil` parse itself is
abstracted: a successfully parsed timestamp is represented by its input
string); `metadata` holds only the string entries the service ever writes. -/
structure NewsArticle where
  source : String
  title : String
  url : HttpUrl
  published_at : Option String
  summary : Option String
  metadata : List (String × String) := []
deriving Repr, DecidableEq

/-- `NewsFeed` of `src/fastpi/models/news.py`; `fetched_at` is effectful and
omitted. -/
structure NewsFeed where
  source : String
  items : List NewsArticle
deriving Repr, DecidableEq

instance : Inhabited NewsFeed := ⟨{ source := "", items := [] }⟩

/-- `NewsAggregate` of `src/fastpi/models/news.py`; `fetched_at` omitted. -/
structure NewsAggregate where
  feeds : List NewsFeed
deriving Repr, DecidableEq

/-- A Python value held in or tested against the scraper's `seen` set: either
a `str` or a pydantic `Url` object. -/
inductive PyObj where
  | str (s : String)
  | url (u : HttpUrl)
deriving Repr, DecidableEq

/-- Python `==` on such values: a pydantic-v2 `Url` never equals a `str`
(`Url.__eq__` with a non-`Url` falls back to `False`). -/
def pyObjEq : PyObj → PyObj → Bool
  | .str a, .str b => a == b
  | .url a, .url b => a == b
  | _, _ => false

/-- Python `x in seen` membership for the dedup set. -/
def pyMem (x : PyObj) (seen : List PyObj) : Bool :=
  seen.any (pyObjEq x)

/-- `str(u)` on a pydantic Url (serialization modelled as the stored string). -/
def urlStr (u : HttpUrl) : String := u.val

/-- Modelled `urllib.parse.urljoin` for the http(s) cases the scraper meets:
an href carrying a scheme (`"://"`) is returned unchanged, a root-relative
href is resolved against the base's origin, and any other href replaces the
last segment of the base's path. -/
def urljoin (base href : String) : String :=
  match splitFirst? href.toList "://".toList with
  | some _ => href
  | Option.none =>
    if strStarts href "/" then
      match splitFirst? base.toList "://".toList with
      | Option.none => href
      | some (scheme, after) =>
        let host := after.takeWhile (fun c => c ≠ '/')
        String.mk (scheme ++ "://".toList ++ host ++ href.toList)
    else
      let upToLastSlash := (base.toList.reverse.dropWhile (fun c => c ≠ '/')).reverse
      String.mk (upToLastSlash ++ href.toList)

/-- `_parse_datetime` with the `dateutil` parse abstracted: a missing or
empty value is `None`; otherwise the (UTC-normalized) timestamp is
represented by its input string. -/
def parse_datetime : Option String → Option String
  | Option.none => Option.none
  | some s => if s == "" then Option.none else some s

/-- The anchor `element.find("a", href=True)` returns inside an `<article>`
element: the href attribute (present by the query's filter) and the anchor's
stripped text. -/
structure FoundAnchor where
  href : String
  title : String
deriving Repr, DecidableEq

/-- An `<article>` element as `_build_article_from_element` reads it: its
first href-carrying anchor, the stripped text of its first `<p>`, and the
datetime value of its first `<time>` element (the `datetime` attribute, else
`data-datetime`, else the tag's text). -/
structure ArticleElement where
  anchor : Option FoundAnchor
  para : Option String
  timeVal : Option String
deriving Repr, DecidableEq

/-- An anchor returned by `soup.select("h2 a, h3 a, .headline a")`; its href
attribute may be absent. -/
structure SelectAnchor where
  href : Option String
  title : String
deriving Repr, DecidableEq

/-- The parsed HTML document, as seen through the two queries
`_extract_articles` runs on it. -/
structure Soup where
  articles : List ArticleElement
  fallback : List SelectAnchor
deriving Repr, DecidableEq

/-- `NewsService._build_article_from_element`: require an href-carrying
anchor with a stripped title of at least 5 characters, resolve the href
against the base URL, and require the result to start with `"http"`. -/
def build_article_from_element (el : ArticleElement) (base_url source : String) :
    Option NewsArticle :=
  match el.anchor with
  | Option.none => Option.none
  | some a =>
    if a.title == "" || a.title.length < 5 then Option.none
    else
      let href := urljoin base_url a.href
      if !strStarts href "http" then Option.none
      else
        some { source := source, title := a.title, url := ⟨href⟩,
               published_at := parse_datetime el.timeVal, summary := el.para,
               metadata := [] }

/-- Tier 1 of `_extract_articles`: iterate the `<article>` elements,
appending each built article whose `url` (a pydantic `Url` object) is not in
the `seen` set of strings, and recording `str(item.url)`; stop once the cap
is reached. -/
def extract_tier1 (base_url source : String) (limit : Nat) :
    List ArticleElement → List NewsArticle → List PyObj →
    List NewsArticle × List PyObj
  | [], articles, seen => (articles, seen)
  | el :: rest, articles, seen =>
    let step :=
      match build_article_from_element el base_url source with
      | some item =>
        if pyMem (.url item.url) seen then (articles, seen)
        else (articles ++ [item], seen ++ [.str (urlStr item.url)])
      | Option.none => (articles, seen)
    if step.1.length ≥ limit then step
    else extract_tier1 base_url source limit rest step.1 step.2

/-- Tier 2 of `_extract_articles`: iterate the fallback anchors, skipping
those without an href, with a short title, with a non-`http` resolved URL, or
whose resolved URL string is already in `seen`; stop once the cap is
reached. -/
def extract_tier2 (base_url source : String) (limit : Nat) :
    List SelectAnchor → List NewsArticle → List PyObj →
    List NewsArticle × List PyObj
  | [], articles, seen => (articles, seen)
  | a :: rest, articles, seen =>
    match a.href with
    | Option.none => extract_tier2 base_url source limit rest articles seen
    | some href =>
      if href == "" || a.title == "" || a.title.length < 5 then
        extract_tier2 base_url source limit rest articles seen
      else
        let absolute := urljoin base_url href
        if !strStarts absolute "http" then
          extract_tier2 base_url source limit rest articles seen
        else if pyMem (.str absolute) seen then
          extract_tier2 base_url source limit rest articles seen
        else
          let articles2 := articles ++
            [ { source := source, title := a.title, url := ⟨absolute⟩,
                published_at := Option.none, summary := Option.none,
                metadata := [] } ]
          let seen2 := seen ++ [.str absolute]
          if articles2.length ≥ limit then (articles2, seen2)
          else extract_tier2 base_url source limit rest articles2 seen2

/-- `NewsService._extract_articles`: tier 1 over the `<article>` elements,
tier 2 over the fallback anchors when tier 1 fell short of the cap, then
truncation to the cap. -/
def extract_articles (soup : Soup) (base_url source : String) (limit : Nat) :
    List NewsArticle :=
  let r1 := extract_tier1 base_url source limit soup.articles [] []
  let articles :=
    if r1.1.length < limit then
      (extract_tier2 base_url source limit soup.fallback r1.1 r1.2).1
    else r1.1
  articles.take limit

/-- An `<item>` element of the RSS document: stripped texts of its `title`,
`link`, `pubDate` (with the `dc:date` fallback already applied) and
`description` children, `none` when the child tag is missing. -/
structure RssItem where
  title : Option String
  link : Option String
  pubDate : Option String
  description : Option String
deriving Repr, DecidableEq

/-- The item loop of `_fetch_cryptopanic_rss`: skip items without a title or
link tag, with an empty title or link, or with an already-seen link;
deduplicate by link; stop once the cap is reached. -/
def rss_collect (source : String) (limit : Nat) :
    List RssItem → List NewsArticle → List String → List NewsArticle
  | [], items, _ => items
  | entry :: rest, items, seen =>
    match entry.title, entry.link with
    | some title, some link =>
      if title == "" || link == "" || seen.contains link then
        rss_collect source limit rest items seen
      else
        let items2 := items ++
          [ { source := source, title := title, url := ⟨link⟩,
              published_at := parse_datetime entry.pubDate,
              summary := entry.description, metadata := [] } ]
        if items2.length ≥ limit then items2
        else rss_collect source limit rest items2 (seen ++ [link])
    | _, _ => rss_collect source limit rest items seen

/-- The target's fetched document, as parsed by whichever path consumes it. -/
structure TargetDoc where
  soup : Soup
  rss : List RssItem
deriving Repr

/-- `NewsService._fetch_target`: cap at `min(limit_per_source, target.limit)`
and dispatch CryptoPanic to the RSS path, everything else to the HTML
scraper. -/
def fetch_target (t : ScrapeTarget) (limit_per_source : Nat) (doc : TargetDoc) :
    NewsFeed :=
  let limit := min limit_per_source t.limit
  if t.name == "CryptoPanic" then
    { source := t.name, items := rss_collect t.name limit doc.rss [] [] }
  else
    { source := t.name, items := extract_articles doc.soup t.url t.name limit }

/-- The synthetic one-article feed `fetch_all` builds for a failed target. -/
def error_feed (t : ScrapeTarget) (msg : String) : NewsFeed :=
  { source := t.name,
    items := [ { source := t.name, title := "Failed to retrieve articles",
                 url := ⟨"https://status.fastpi.dev/error"⟩,
                 published_at := Option.none, summary := some msg,
                 metadata := [("error", msg)] } ] }

/-- `NewsService.fetch_all`: gather one result per configured target (the
function argument gives each target's awaited outcome, `.error msg` for any
raised exception) and collect positionally, replacing failures by the
synthetic error feed. -/
def fetch_all (result : ScrapeTarget → Except String NewsFeed) : NewsAggregate :=
  { feeds := SCRAPE_TARGETS.map (fun t =>
      match result t with
      | .ok feed => feed
      | .error msg => error_feed t msg) }

/-! ### Helper lemmas -/

theorem fetch_binance_ok_shape (r : Except String PyVal) (b q : String)
    (p : MarketPricePoint) (h : fetch_binance r b q = .ok p) :
    p.source = "binance" ∧ p.symbol = b ++ q := by
  cases r with
  | error e => simp [fetch_binance] at h
  | ok payload =>
    cases payload <;> simp [fetch_binance] at h
    case dict kvs => exact ⟨by rw [← h], by rw [← h]⟩

theorem fetch_bybit_ok_shape (r : Except String PyVal) (b q : String)
    (p : MarketPricePoint) (h : fetch_bybit r b q = .ok p) :
    p.source = "bybit" ∧ p.symbol = b ++ q := by
  cases r with
  | error e => simp [fetch_bybit] at h
  | ok payload =>
    cases payload <;> simp only [fetch_bybit] at h <;> try exact absurd h (by simp)
    case dict kvs =>
      repeat' split at h
      all_goals
        first
        | exact Except.noConfusion h
        | (injection h with h2
           exact ⟨by rw [← h2], by rw [← h2]⟩)

theorem fetch_coincap_ok_shape (r : Except String PyVal) (b q : String)
    (p : MarketPricePoint) (h : fetch_coincap r b q = .ok p) :
    p.source = "coincap" ∧ p.symbol = b ++ q := by
  cases r with
  | error e => simp [fetch_coincap] at h
  | ok payload =>
    cases payload <;> simp only [fetch_coincap] at h <;> try exact absurd h (by simp)
    case dict kvs =>
      repeat' split at h
      all_goals
        first
        | exact Except.noConfusion h
        | (injection h with h2
           exact ⟨by rw [← h2], by rw [← h2]⟩)

theorem settle_symbol (S : String) (r : Except String MarketPricePoint)
    (h : ∀ p, r = .ok p → p.symbol = S) : (settle S r).symbol = S := by
  cases r with
  | ok p => exact h p rfl
  | error e => rfl

theorem settle_source (S : String) (r : Except String MarketPricePoint) (name : String)
    (h : ∀ p, r = .ok p → p.source = name) :
    (settle S r).source = name ∨ (settle S r).source = "error" := by
  cases r with
  | ok p => exact Or.inl (h p rfl)
  | error e => exact Or.inr rfl

theorem settle_error (S : String) (r : Except String MarketPricePoint) (msg : String)
    (h : r = .error msg) : settle S r = error_point S msg := by
  rw [h]
  rfl

theorem coincap_find_match (baseU : String) :
    ∀ (pre : List PyVal) (e : PyVal) (post : List PyVal) (s : String),
      (∀ e2 ∈ pre, ∃ s2, entry_symbol? e2 = .ok s2 ∧ pyUpper s2 ≠ baseU) →
      entry_symbol? e = .ok s → pyUpper s = baseU →
      coincap_find (pre ++ e :: post) baseU = .ok (some e) := by
  intro pre
  induction pre with
  | nil =>
    intro e post s _ he hs
    simp [coincap_find, he, hs]
  | cons a l ih =>
    intro e post s hpre he hs
    obtain ⟨s2, hs2, hs2ne⟩ := hpre a (by simp)
    simp only [List.cons_append, coincap_find, hs2]
    rw [if_neg (by simpa using hs2ne)]
    exact ih e post s (fun e2 h2 => hpre e2 (by simp [h2])) he hs

/-! ### Claim theorems (market aggregator) -/

/-- C9: `_to_float` is total — every `PyVal` yields `none` or a value, with
`None`/`""` mapping to `none`, parseable strings and numbers to their value,
and type errors (lists, dicts) or parse failures to `none`. -/
theorem to_float_total_spec :
    to_float .none = Option.none ∧
    to_float (.str "") = Option.none ∧
    (∀ s q, s ≠ "" → pyFloatOfString? s = some q → to_float (.str s) = some q) ∧
    (∀ s, pyFloatOfString? s = Option.none → to_float (.str s) = Option.none) ∧
    (∀ q, to_float (.num q) = some q) ∧
    (∀ xs, to_float (.list xs) = Option.none) ∧
    (∀ kvs, to_float (.dict kvs) = Option.none) ∧
    (∀ v, to_float v = Option.none ∨ ∃ q, to_float v = some q) := by
  refine ⟨rfl, rfl, ?_, ?_, fun q => rfl, fun xs => rfl, fun kvs => rfl, ?_⟩
  · intro s q hs hp
    simp [to_float, hs, hp]
  · intro s hp
    by_cases h : s = "" <;> simp [to_float, h, hp]
  · intro v
    cases h : to_float v with
    | none => exact Or.inl rfl
    | some q => exact Or.inr ⟨q, rfl⟩

theorem to_float_total_spec_witness :
    to_float (.str "15") = some (decVal ['1', '5']) :=
  to_float_total_spec.2.2.1 "15" (decVal ['1', '5']) (by decide) rfl

/-- C3: `median_price` is the median of the non-null prices: `none` when
there are none; for any sorted arrangement of them, the middle value when
their count is odd, the average of the two middle values when it is even. -/
theorem median_price_spec (agg : MarketAggregate) :
    (agg.prices.filterMap (fun p => p.price) = [] → median_price agg = Option.none) ∧
    (∀ l : List ℚ, l.Perm (agg.prices.filterMap (fun p => p.price)) →
      l.Sorted (· ≤ ·) →
      (l.length % 2 = 1 → median_price agg = some (l.getD (l.length / 2) 0)) ∧
      (l ≠ [] → l.length % 2 = 0 →
        median_price agg =
          some ((l.getD (l.length / 2 - 1) 0 + l.getD (l.length / 2) 0) / 2))) := by
  constructor
  · intro h
    simp [median_price, h]
  · intro l hperm hsort
    have hl : l = List.insertionSort (· ≤ ·) (agg.prices.filterMap (fun p => p.price)) := by
      apply List.eq_of_perm_of_sorted
        (hperm.trans (List.perm_insertionSort _ _).symm) hsort
      exact List.sorted_insertionSort _ _
    constructor
    · intro hodd
      have hne : l ≠ [] := by
        intro h0
        rw [h0] at hodd
        simp at hodd
      rw [median_price, ← hl]
      have : l.isEmpty = false := by simpa using hne
      simp [this, hodd]
    · intro hne heven
      rw [median_price, ← hl]
      have : l.isEmpty = false := by simpa using hne
      simp [this, heven]

/-- The three-point aggregate used to witness the median property. -/
def medianTestAgg : MarketAggregate :=
  { base_symbol := "BTC", quote_symbol := "USDT", symbol := "BTCUSDT",
    prices :=
      [ { source := "binance", symbol := "BTCUSDT", price := some 3,
          change_24h := Option.none, volume_24h := Option.none, raw := .none },
        { source := "bybit", symbol := "BTCUSDT", price := some 1,
          change_24h := Option.none, volume_24h := Option.none, raw := .none },
        { source := "coincap", symbol := "BTCUSDT", price := some 2,
          change_24h := Option.none, volume_24h := Option.none, raw := .none } ] }

theorem median_price_spec_witness : median_price medianTestAgg = some 2 := by
  have h := (median_price_spec medianTestAgg).2 [1, 2, 3] (by decide) (by decide)
  simpa using h.1 (by decide)

/-- C4: on the Bybit path, whenever the first list element of the response
carries a `price24hPcnt` value that coerces to a number `q`, the returned
point's `change_24h` is exactly `q * 100`. -/
theorem bybit_change_scaled (base quote : String) (kvs rkvs fkvs : List (String × PyVal))
    (rest : List PyVal) (v : PyVal) (q : ℚ)
    (hres : kvs.lookup "result" = some (.dict rkvs))
    (hlist : rkvs.lookup "list" = some (.list (.dict fkvs :: rest)))
    (hpct : fkvs.lookup "price24hPcnt" = some v)
    (hq : to_float v = some q) :
    ∃ p, fetch_bybit (.ok (.dict kvs)) base quote = .ok p ∧
      p.change_24h = some (q * 100) := by
  have hne : pyFalsy (.dict fkvs) = false := by
    cases fkvs with
    | nil => simp at hpct
    | cons a l => rfl
  rw [fetch_bybit, hres]
  simp only [Option.getD_some]
  rw [hlist]
  simp only [Option.getD_some, hne, Bool.false_eq_true, if_false]
  exact ⟨_, rfl, by simp [hpct, hq]⟩

theorem bybit_change_scaled_witness :
    ∃ p, fetch_bybit (.ok (.dict [("result", .dict [("list", .list
        [.dict [("lastPrice", .num 100), ("price24hPcnt", .num ((1 : ℚ) / 40))]])])]))
      "BTC" "USDT" = .ok p ∧ p.change_24h = some ((1 : ℚ) / 40 * 100) :=
  bybit_change_scaled "BTC" "USDT"
    [("result", .dict [("list", .list
      [.dict [("lastPrice", .num 100), ("price24hPcnt", .num ((1 : ℚ) / 40))]])])]
    [("list", .list [.dict [("lastPrice", .num 100), ("price24hPcnt", .num ((1 : ℚ) / 40))]])]
    [("lastPrice", .num 100), ("price24hPcnt", .num ((1 : ℚ) / 40))]
    [] (.num ((1 : ℚ) / 40)) ((1 : ℚ) / 40) rfl rfl rfl rfl

/-- C5: CoinCap asset selection — an empty candidate list fails with the
data error; the first case-insensitive symbol match is selected even when it
is not the first entry; with no match the first entry is the fallback; on the
ETH-then-BTC example with base "BTC" the BTC entry is returned. -/
theorem coincap_selection_spec :
    (∀ base quote, fetch_coincap (.ok (.dict [("data", .list [])])) base quote =
        .error ("CoinCap returned no asset data for " ++ base)) ∧
    (∀ baseU (pre : List PyVal) e post s,
        (∀ e2 ∈ pre, ∃ s2, entry_symbol? e2 = .ok s2 ∧ pyUpper s2 ≠ baseU) →
        entry_symbol? e = .ok s → pyUpper s = baseU →
        coincap_select (pre ++ e :: post) baseU = .ok (some e)) ∧
    (∀ (entries : List PyVal) baseU e rest, entries = e :: rest →
        coincap_find entries baseU = .ok Option.none →
        coincap_select entries baseU = .ok (some e)) ∧
    ((fetch_coincap (.ok (.dict [("data", .list
          [.dict [("symbol", .str "ETH")],
           .dict [("symbol", .str "BTC"), ("priceUsd", .str "65000.5")]])]))
        "BTC" "USDT").map (fun p => p.raw) =
      .ok (.dict [("symbol", .str "BTC"), ("priceUsd", .str "65000.5")])) := by
  refine ⟨fun base quote => rfl, ?_, ?_, rfl⟩
  · intro baseU pre e post s hpre he hs
    rw [coincap_select, coincap_find_match baseU pre e post s hpre he hs]
  · intro entries baseU e rest hent hfind
    rw [coincap_select, hfind, hent]
    rfl

theorem coincap_selection_spec_witness :
    coincap_select [.dict [("symbol", .str "ETH")], .dict [("symbol", .str "BTC")]]
      "BTC" = .ok (some (.dict [("symbol", .str "BTC")])) :=
  coincap_selection_spec.2.1 "BTC" [.dict [("symbol", .str "ETH")]]
    (.dict [("symbol", .str "BTC")]) [] "BTC"
    (fun e2 h2 => by
      rw [List.mem_singleton] at h2
      subst h2
      exact ⟨"ETH", rfl, by decide⟩)
    rfl (by decide)

/-- C1: `fetch_symbol` always returns exactly 3 price points, positionally
one per provider (Binance, Bybit, CoinCap), each tagged with its provider
name or "error"; a failed provider contributes the error placeholder with
the failure message under the `message` key of `raw`. -/
theorem fetch_symbol_three_points (base_symbol quote_symbol : String)
    (r1 r2 r3 : Except String PyVal) :
    (fetch_symbol base_symbol quote_symbol r1 r2 r3).prices.length = 3 ∧
    (((fetch_symbol base_symbol quote_symbol r1 r2 r3).prices.getD 0 default).source = "binance" ∨
      ((fetch_symbol base_symbol quote_symbol r1 r2 r3).prices.getD 0 default).source = "error") ∧
    (((fetch_symbol base_symbol quote_symbol r1 r2 r3).prices.getD 1 default).source = "bybit" ∨
      ((fetch_symbol base_symbol quote_symbol r1 r2 r3).prices.getD 1 default).source = "error") ∧
    (((fetch_symbol base_symbol quote_symbol r1 r2 r3).prices.getD 2 default).source = "coincap" ∨
      ((fetch_symbol base_symbol quote_symbol r1 r2 r3).prices.getD 2 default).source = "error") ∧
    (∀ msg, fetch_binance r1 (pyUpper base_symbol) (pyUpper quote_symbol) = .error msg →
      (fetch_symbol base_symbol quote_symbol r1 r2 r3).prices.getD 0 default =
        error_point ((pyUpper base_symbol) ++ (pyUpper quote_symbol)) msg) ∧
    (∀ msg, fetch_bybit r2 (pyUpper base_symbol) (pyUpper quote_symbol) = .error msg →
      (fetch_symbol base_symbol quote_symbol r1 r2 r3).prices.getD 1 default =
        error_point ((pyUpper base_symbol) ++ (pyUpper quote_symbol)) msg) ∧
    (∀ msg, fetch_coincap r3 (pyUpper base_symbol) (pyUpper quote_symbol) = .error msg →
      (fetch_symbol base_symbol quote_symbol r1 r2 r3).prices.getD 2 default =
        error_point ((pyUpper base_symbol) ++ (pyUpper quote_symbol)) msg) := by
  refine ⟨rfl, ?_, ?_, ?_, ?_, ?_, ?_⟩
  · exact settle_source _ _ _ (fun p hp => (fetch_binance_ok_shape _ _ _ _ hp).1)
  · exact settle_source _ _ _ (fun p hp => (fetch_bybit_ok_shape _ _ _ _ hp).1)
  · exact settle_source _ _ _ (fun p hp => (fetch_coincap_ok_shape _ _ _ _ hp).1)
  · exact fun msg h => settle_error _ _ _ h
  · exact fun msg h => settle_error _ _ _ h
  · exact fun msg h => settle_error _ _ _ h

theorem fetch_symbol_three_points_witness :
    (fetch_symbol "btc" "usdt" (.error "boom") (.ok (.dict [])) (.ok (.list []))).prices.getD
        0 default = error_point "BTCUSDT" "boom" :=
  (fetch_symbol_three_points "btc" "usdt" (.error "boom") (.ok (.dict []))
    (.ok (.list []))).2.2.2.2.1 "boom" rfl

/-- C10: every aggregate out of `fetch_symbol` carries the uppercased base
and quote, their concatenation as its symbol, and every price point —
including error placeholders — repeats that symbol. -/
theorem fetch_symbol_symbol_invariant (base_symbol quote_symbol : String)
    (r1 r2 r3 : Except String PyVal) :
    (fetch_symbol base_symbol quote_symbol r1 r2 r3).base_symbol = (pyUpper base_symbol) ∧
    (fetch_symbol base_symbol quote_symbol r1 r2 r3).quote_symbol = (pyUpper quote_symbol) ∧
    (fetch_symbol base_symbol quote_symbol r1 r2 r3).symbol =
      (pyUpper base_symbol) ++ (pyUpper quote_symbol) ∧
    (∀ i, i < (fetch_symbol base_symbol quote_symbol r1 r2 r3).prices.length →
      ((fetch_symbol base_symbol quote_symbol r1 r2 r3).prices.getD i default).symbol =
        (fetch_symbol base_symbol quote_symbol r1 r2 r3).symbol) := by
  refine ⟨rfl, rfl, rfl, ?_⟩
  intro i hi
  have h3 : i < 3 := hi
  interval_cases i
  · exact settle_symbol _ _ (fun p hp => (fetch_binance_ok_shape _ _ _ _ hp).2)
  · exact settle_symbol _ _ (fun p hp => (fetch_bybit_ok_shape _ _ _ _ hp).2)
  · exact settle_symbol _ _ (fun p hp => (fetch_coincap_ok_shape _ _ _ _ hp).2)

theorem fetch_symbol_symbol_invariant_witness :
    ((fetch_symbol "btc" "usdt" (.error "a") (.error "b") (.error "c")).prices.getD
        0 default).symbol =
      (fetch_symbol "btc" "usdt" (.error "a") (.error "b") (.error "c")).symbol :=
  (fetch_symbol_symbol_invariant "btc" "usdt" (.error "a") (.error "b")
    (.error "c")).2.2.2 0 (by decide)

/-! ### Helper lemmas (news aggregator) -/

theorem getD_map_targets (f : ScrapeTarget → NewsFeed) (i : ℕ)
    (h : i < SCRAPE_TARGETS.length) :
    (SCRAPE_TARGETS.map f).getD i default = f (SCRAPE_TARGETS.get ⟨i, h⟩) := by
  rw [List.getD_eq_getElem _ _ (by simpa using h)]
  simp

theorem build_article_ok (el : ArticleElement) (b s : String) (a : NewsArticle)
    (h : build_article_from_element el b s = some a) :
    ∃ an, el.anchor = some an ∧ 5 ≤ an.title.length ∧ a.title = an.title ∧
      a.url.val = urljoin b an.href ∧ strStarts a.url.val "http" = true := by
  rw [build_article_from_element] at h
  cases hel : el.anchor with
  | none =>
    rw [hel] at h
    exact absurd h (by simp)
  | some an =>
    rw [hel] at h
    dsimp only at h
    by_cases ht : (an.title == "" || decide (an.title.length < 5)) = true
    · rw [if_pos ht] at h
      exact absurd h (by simp)
    · rw [if_neg ht] at h
      by_cases hh : (!strStarts (urljoin b an.href) "http") = true
      · rw [if_pos hh] at h
        exact absurd h (by simp)
      · rw [if_neg hh] at h
        injection h with h2
        subst h2
        simp only [Bool.or_eq_true, not_or, beq_iff_eq, decide_eq_true_eq] at ht
        refine ⟨an, rfl, by omega, rfl, rfl, ?_⟩
        simpa using hh

theorem extract_tier1_filter (b s : String) (limit : Nat) :
    ∀ (els : List ArticleElement) (acc : List NewsArticle) (seen : List PyObj),
      (∀ a ∈ acc, 5 ≤ a.title.length ∧ strStarts a.url.val "http" = true) →
      ∀ a ∈ (extract_tier1 b s limit els acc seen).1,
        5 ≤ a.title.length ∧ strStarts a.url.val "http" = true := by
  intro els
  induction els with
  | nil =>
    intro acc seen hacc a ha
    exact hacc a ha
  | cons el rest ih =>
    intro acc seen hacc a ha
    rw [extract_tier1] at ha
    cases hb : build_article_from_element el b s with
    | none =>
      rw [hb] at ha
      simp only at ha
      split at ha
      · exact hacc a ha
      · exact ih acc seen hacc a ha
    | some item =>
      rw [hb] at ha
      simp only at ha
      obtain ⟨an, -, h5, hti, -, hst⟩ := build_article_ok el b s item hb
      have hitem : 5 ≤ item.title.length ∧ strStarts item.url.val "http" = true := by
        rw [hti]
        exact ⟨h5, hst⟩
      by_cases hm : pyMem (.url item.url) seen = true
      · rw [if_pos hm] at ha
        split at ha
        · exact hacc a ha
        · exact ih acc seen hacc a ha
      · rw [if_neg hm] at ha
        have hacc2 : ∀ a2 ∈ acc ++ [item],
            5 ≤ a2.title.length ∧ strStarts a2.url.val "http" = true := by
          intro a2 ha2
          rcases List.mem_append.mp ha2 with h2 | h2
          · exact hacc a2 h2
          · rw [List.mem_singleton.mp h2]
            exact hitem
        split at ha
        · exact hacc2 a ha
        · exact ih _ _ hacc2 a ha

theorem extract_tier2_filter (b s : String) (limit : Nat) :
    ∀ (anchors : List SelectAnchor) (acc : List NewsArticle) (seen : List PyObj),
      (∀ a ∈ acc, 5 ≤ a.title.length ∧ strStarts a.url.val "http" = true) →
      ∀ a ∈ (extract_tier2 b s limit anchors acc seen).1,
        5 ≤ a.title.length ∧ strStarts a.url.val "http" = true := by
  intro anchors
  induction anchors with
  | nil =>
    intro acc seen hacc a ha
    exact hacc a ha
  | cons an rest ih =>
    intro acc seen hacc a ha
    rw [extract_tier2] at ha
    cases hh : an.href with
    | none =>
      rw [hh] at ha
      exact ih acc seen hacc a ha
    | some href =>
      rw [hh] at ha
      simp only at ha
      by_cases ht : (href == "" || an.title == "" || decide (an.title.length < 5)) = true
      · rw [if_pos ht] at ha
        exact ih acc seen hacc a ha
      · rw [if_neg ht] at ha
        by_cases habs : (!strStarts (urljoin b href) "http") = true
        · rw [if_pos habs] at ha
          exact ih acc seen hacc a ha
        · rw [if_neg habs] at ha
          by_cases hm : pyMem (.str (urljoin b href)) seen = true
          · rw [if_pos hm] at ha
            exact ih acc seen hacc a ha
          · rw [if_neg hm] at ha
            simp only [Bool.or_eq_true, not_or, beq_iff_eq, decide_eq_true_eq] at ht
            have hacc2 : ∀ a2 ∈ acc ++
                [ { source := s, title := an.title, url := ⟨urljoin b href⟩,
                    published_at := Option.none, summary := Option.none,
                    metadata := [] } ],
                5 ≤ a2.title.length ∧ strStarts a2.url.val "http" = true := by
              intro a2 ha2
              rcases List.mem_append.mp ha2 with h2 | h2
              · exact hacc a2 h2
              · rw [List.mem_singleton.mp h2]
                constructor
                · show 5 ≤ an.title.length
                  omega
                · show strStarts (urljoin b href) "http" = true
                  simpa using habs
            split at ha
            · exact hacc2 a ha
            · exact ih _ _ hacc2 a ha

theorem rss_collect_length_le (source : String) (limit : Nat) :
    ∀ (entries : List RssItem) (acc : List NewsArticle) (seen : List String),
      acc.length < limit →
      (rss_collect source limit entries acc seen).length ≤ limit := by
  intro entries
  induction entries with
  | nil =>
    intro acc seen h
    exact Nat.le_of_lt h
  | cons e rest ih =>
    intro acc seen h
    rw [rss_collect]
    cases ht : e.title with
    | none => exact ih acc seen h
    | some title =>
      cases hl : e.link with
      | none => exact ih acc seen h
      | some link =>
        simp only
        by_cases hskip : (title == "" || link == "" || seen.contains link) = true
        · rw [if_pos hskip]
          exact ih acc seen h
        · rw [if_neg hskip]
          split
          · simp only [List.length_append, List.length_singleton]
            omega
          · rename_i hfull
            refine ih _ _ ?_
            simp only [List.length_append, List.length_singleton, ge_iff_le,
              not_le] at hfull
            simpa using hfull

/-! ### Claim theorems (news aggregator) -/

/-- C2: `fetch_all` returns one feed per configured target (11 of them),
positionally; a target whose fetch raised contributes a feed with exactly one
synthetic article carrying the fixed title and placeholder URL, the failure
message as summary and under the `error` metadata key, and no publish
date. -/
theorem fetch_all_feeds_spec (result : ScrapeTarget → Except String NewsFeed) :
    (fetch_all result).feeds.length = 11 ∧
    (∀ i (h : i < SCRAPE_TARGETS.length),
      (∀ feed, result (SCRAPE_TARGETS.get ⟨i, h⟩) = .ok feed →
        (fetch_all result).feeds.getD i default = feed) ∧
      (∀ msg, result (SCRAPE_TARGETS.get ⟨i, h⟩) = .error msg →
        (fetch_all result).feeds.getD i default =
          { source := (SCRAPE_TARGETS.get ⟨i, h⟩).name,
            items := [ { source := (SCRAPE_TARGETS.get ⟨i, h⟩).name,
                         title := "Failed to retrieve articles",
                         url := ⟨"https://status.fastpi.dev/error"⟩,
                         published_at := Option.none, summary := some msg,
                         metadata := [("error", msg)] } ] })) := by
  refine ⟨rfl, ?_⟩
  intro i h
  constructor
  · intro feed hf
    simp only [fetch_all]
    rw [getD_map_targets _ i h, hf]
  · intro msg hm
    simp only [fetch_all]
    rw [getD_map_targets _ i h, hm]
    rfl

theorem fetch_all_feeds_spec_witness :
    (fetch_all (fun _ => .error "down")).feeds.getD 0 default =
      { source := "CoinDesk",
        items := [ { source := "CoinDesk", title := "Failed to retrieve articles",
                     url := ⟨"https://status.fastpi.dev/error"⟩,
                     published_at := Option.none, summary := some "down",
                     metadata := [("error", "down")] } ] } :=
  ((fetch_all_feeds_spec (fun _ => .error "down")).2 0 (by decide)).2 "down" rfl

/-- C6: for a positive requested per-source cap, each configured target's
feed holds at most `min cap target.limit` articles on either path; the HTML
extraction is capped at its limit for every limit. -/
theorem per_target_cap_spec :
    (∀ t cap doc, 1 ≤ cap → t ∈ SCRAPE_TARGETS →
      (fetch_target t cap doc).items.length ≤ min cap t.limit) ∧
    (∀ soup b s limit, (extract_articles soup b s limit).length ≤ limit) := by
  have hextract : ∀ soup b s limit,
      (extract_articles soup b s limit).length ≤ limit := by
    intro soup b s limit
    simp only [extract_articles]
    exact List.length_take_le _ _
  refine ⟨?_, hextract⟩
  intro t cap doc hcap ht
  have hlim : 1 ≤ t.limit := by
    have hall : ∀ t2 ∈ SCRAPE_TARGETS, 1 ≤ t2.limit := by decide
    exact hall t ht
  have hpos : 0 < min cap t.limit := lt_min hcap hlim
  rw [fetch_target]
  by_cases hname : (t.name == "CryptoPanic") = true
  · rw [if_pos hname]
    exact rss_collect_length_le t.name (min cap t.limit) doc.rss [] [] (by simpa using hpos)
  · rw [if_neg hname]
    exact hextract doc.soup t.url t.name (min cap t.limit)

theorem per_target_cap_spec_witness :
    (fetch_target ⟨"CryptoPanic", "https://cryptopanic.com/news/rss/", 6⟩ 2
      ⟨⟨[], []⟩, []⟩).items.length ≤ min 2 6 :=
  per_target_cap_spec.1 ⟨"CryptoPanic", "https://cryptopanic.com/news/rss/", 6⟩ 2
    ⟨⟨[], []⟩, []⟩ (by decide) (by decide)

/-- C7 is refuted by the code: under pydantic v2 the tier-1 dedup membership
test compares a `Url` object against a set of strings and never fires, so two
`<article>` elements resolving to the same absolute URL BOTH enter the feed;
the resulting feed lists the same URL twice. -/
theorem dedup_bug_duplicate_structured :
    (extract_articles
        ⟨[ ⟨some ⟨"/article-1", "First crypto update"⟩, Option.none, Option.none⟩,
           ⟨some ⟨"/article-1", "First crypto update"⟩, Option.none, Option.none⟩ ], []⟩
      "https://testsource.example/" "TestSource" 6).map (fun a => a.url.val) =
      ["https://testsource.example/article-1",
       "https://testsource.example/article-1"] := by
  decide

/-- C8: every extracted article (either tier) comes from an anchor with an
href and a title of at least 5 characters whose resolved URL starts with
`"http"`; an anchor titled "Hi" is rejected while "Crypto surges today" with
a resolvable URL is extracted. -/
theorem html_filter_spec :
    (∀ el b s a, build_article_from_element el b s = some a →
      ∃ an, el.anchor = some an ∧ 5 ≤ an.title.length ∧ a.title = an.title ∧
        a.url.val = urljoin b an.href ∧ strStarts a.url.val "http" = true) ∧
    (∀ el b s an, el.anchor = some an → an.title.length < 5 →
      build_article_from_element el b s = Option.none) ∧
    (∀ soup b s limit a, a ∈ extract_articles soup b s limit →
      5 ≤ a.title.length ∧ strStarts a.url.val "http" = true) ∧
    ((extract_articles
        ⟨[ ⟨some ⟨"/y", "Hi"⟩, Option.none, Option.none⟩,
           ⟨some ⟨"/crypto-surges", "Crypto surges today"⟩, Option.none, Option.none⟩ ],
         []⟩
      "https://example.com/" "S" 6).map (fun a => (a.title, a.url.val)) =
      [("Crypto surges today", "https://example.com/crypto-surges")]) := by
  refine ⟨build_article_ok, ?_, ?_, by decide⟩
  · intro el b s an hel h5
    rw [build_article_from_element, hel]
    dsimp only
    rw [if_pos]
    simp [h5]
  · intro soup b s limit a ha
    simp only [extract_articles] at ha
    have ha2 := List.take_subset _ _ ha
    split at ha2
    · exact extract_tier2_filter b s limit soup.fallback _ _
        (extract_tier1_filter b s limit soup.articles [] [] (by simp)) a ha2
    · exact extract_tier1_filter b s limit soup.articles [] [] (by simp) a ha2

theorem html_filter_spec_witness :
    5 ≤ "Crypto surges today".length ∧
      strStarts "https://example.com/crypto-surges" "http" = true :=
  html_filter_spec.2.2.1
    ⟨[ ⟨some ⟨"/y", "Hi"⟩, Option.none, Option.none⟩,
       ⟨some ⟨"/crypto-surges", "Crypto surges today"⟩, Option.none, Option.none⟩ ], []⟩
    "https://example.com/" "S" 6
    { source := "S", title := "Crypto surges today",
      url := ⟨"https://example.com/crypto-surges"⟩, published_at := Option.none,
      summary := Option.none, metadata := [] }
    (by decide)

end FastPI
